import Mathlib

set_option maxHeartbeats 1000000
set_option linter.unusedVariables false

/-! Shallow embedding of src/app.py (Telegram absence-records bot): the CSV
record-store parser and serializer, the git fetch control flow, the lookup
reply renderer and the edit-conversation handlers.  Strings are modelled as
lists of characters (`Str`); Python dicts keyed by strings are modelled as
insertion-ordered association lists.  The csv module is modelled on its
quote-free fragment: with QUOTE_MINIMAL and delimiter ';', fields that contain
no '"', ';' or line break are written and read verbatim. -/

abbrev Str := List Char

/-- Python str.strip() default whitespace (the ASCII whitespace characters). -/
def isWS (c : Char) : Bool :=
  c = ' ' || c = '\t' || c = '\n' || c = '\r' || c = '\x0b' || c = '\x0c'

def dropLead (s : Str) : Str := s.dropWhile isWS

def dropTrail (s : Str) : Str := (s.reverse.dropWhile isWS).reverse

/-- Python str.strip(): remove leading and trailing whitespace. -/
def pyStrip (s : Str) : Str := dropTrail (dropLead s)

/-- Python str.split(sep) for a one-character separator: n separators give
n+1 parts, and ''.split(sep) = ['']. -/
def splitOnChar (c : Char) : Str → List Str
  | [] => [[]]
  | x :: xs =>
    let r := splitOnChar c xs
    if x = c then [] :: r else (x :: r.headD []) :: r.tail

/-- Normalise the line terminators str.splitlines handles here ('\r\n' and a
lone '\r') to '\n'. -/
def normEol : Str → Str
  | [] => []
  | '\r' :: '\n' :: ys => '\n' :: normEol ys
  | '\r' :: ys => '\n' :: normEol ys
  | x :: xs => x :: normEol xs

/-- Python str.splitlines(): split on line breaks; a trailing terminator does
not produce a final empty line, and ''.splitlines() = []. -/
def splitlines (s : Str) : List Str :=
  let parts := splitOnChar '\n' (normEol s)
  if parts.getLast? = some [] then parts.dropLast else parts

def dval (c : Char) : Nat := c.toNat - 48

/-- Continuation of a base-10 digit run as accepted by Python int(): a single
underscore is allowed only between two digits. -/
def pyDigitsAux (acc : Nat) : Str → Option Nat
  | [] => some acc
  | c :: cs =>
    if c = '_' then
      match cs with
      | [] => none
      | c2 :: cs2 => if c2.isDigit then pyDigitsAux (acc * 10 + dval c2) cs2 else none
    else if c.isDigit then pyDigitsAux (acc * 10 + dval c) cs else none

/-- A nonempty digit run as accepted by Python int() (must start with a
digit). -/
def pyDigits : Str → Option Nat
  | [] => none
  | c :: cs => if c.isDigit then pyDigitsAux (dval c) cs else none

/-- Python int(str) in base 10: surrounding whitespace stripped, one optional
sign, then a digit run; `none` models ValueError. -/
def pyInt (s : Str) : Option Int :=
  match pyStrip s with
  | '+' :: rest => (pyDigits rest).map (fun n => (n : Int))
  | '-' :: rest => (pyDigits rest).map (fun n => -(n : Int))
  | t => (pyDigits t).map (fun n => (n : Int))

def digitChar : Nat → Char
  | 0 => '0'
  | 1 => '1'
  | 2 => '2'
  | 3 => '3'
  | 4 => '4'
  | 5 => '5'
  | 6 => '6'
  | 7 => '7'
  | 8 => '8'
  | _ => '9'

/-- Decimal digits of a natural number, most significant first; `fuel` only
makes the recursion structural and never runs out when fuel > n. -/
def natReprAux : Nat → Nat → Str
  | 0, _ => []
  | fuel + 1, n => if n < 10 then [digitChar n] else natReprAux fuel (n / 10) ++ [digitChar (n % 10)]

def natRepr (n : Nat) : Str := natReprAux (n + 1) n

/-- Python str() of an int. -/
def intRepr (n : Int) : Str :=
  if n < 0 then '-' :: natRepr n.natAbs else natRepr n.natAbs

/-- One value of STUDENT_DATA: the inner dict with keys 'ФИО' (`fio`) and
'Количество пропусков' (`cnt`); the count is a Python int, possibly negative. -/
structure StudentRec where
  fio : Str
  cnt : Int
deriving DecidableEq

/-- STUDENT_DATA: a Python dict id ↦ record, i.e. an insertion-ordered
association list with unique keys. -/
abbrev RecordSet := List (Str × StudentRec)

/-- Python dict lookup. -/
def dictGet : RecordSet → Str → Option StudentRec
  | [], _ => none
  | (k, v) :: rest, key => if k = key then some v else dictGet rest key

/-- Python dict assignment: an existing key is updated in place, a new key is
appended at the end. -/
def dictInsert : RecordSet → Str → StudentRec → RecordSet
  | [], key, v => [(key, v)]
  | (k, v0) :: rest, key, v =>
    if k = key then (k, v) :: rest else (k, v0) :: dictInsert rest key v

def keysOf (m : RecordSet) : List Str := m.map (fun p => p.1)

def idColName : Str := "ID номер".data

def fioColName : Str := "ФИО".data

def cntColName : Str := "Количество пропусков".data

def unknownName : Str := "Неизвестно".data

def unknownTime : Str := "Неизвестно".data

def hdrStr : Str := "ID номер;ФИО;Количество пропусков".data

def zeroStr : Str := "0".data

/-- Pad a field row to the fieldnames, as csv.DictReader does: missing fields
become the restval None. -/
def zipPad : List Str → List Str → List (Str × Option Str)
  | [], _ => []
  | f :: fs, [] => (f, none) :: zipPad fs []
  | f :: fs, v :: vs => (f, some v) :: zipPad fs vs

/-- Dict lookup over the padded row: with duplicate fieldnames the last
binding wins, exactly as dict(zip(fieldnames, row)) followed by the restval
overwrite loop behaves. -/
def rowGet (row : List (Str × Option Str)) (key : Str) : Option (Option Str) :=
  match row with
  | [] => none
  | (k, v) :: rest =>
    match rowGet rest key with
    | some r => some r
    | none => if k = key then some v else none

/-- The distinct keys of a dict built from this key list, in first-occurrence
order. -/
def dedupFirstAux (seen : List Str) : List Str → List Str
  | [] => []
  | k :: ks => if k ∈ seen then dedupFirstAux seen ks else k :: dedupFirstAux (k :: seen) ks

def dedupFirst (l : List Str) : List Str := dedupFirstAux [] l

/-- Source line 114: `all(not v for v in row.values())` — every dict value of
the row is falsy ('' or None). -/
def rowIsBlank (fns fields : List Str) : Bool :=
  (dedupFirst fns).all (fun k =>
    match rowGet (zipPad fns fields) k with
    | some (some v) => v.isEmpty
    | _ => true)

/-- The data-row loop of parse_csv_data (source lines 112–141).  A row with
more fields than fieldnames makes DictReader store the extras under the None
key as a list, and `safe_v.strip()` on that list raises AttributeError (line
121), caught at line 146: modelled by the (false, acc) abort that reports
failure and leaves the partially filled STUDENT_DATA in place. -/
def processRows (fns : List Str) : RecordSet → List Str → Bool × RecordSet
  | acc, [] => (true, acc)
  | acc, line :: rest =>
    if line.isEmpty then processRows fns acc rest
    else
      let fields := splitOnChar ';' line
      if fns.length < fields.length then (false, acc)
      else if rowIsBlank fns fields then processRows fns acc rest
      else
        let row := zipPad fns fields
        let sid :=
          match rowGet row idColName with
          | some ov => pyStrip (ov.getD [])
          | none => []
        if sid.isEmpty then processRows fns acc rest
        else
          let absStr :=
            match rowGet row cntColName with
            | some ov => pyStrip (ov.getD [])
            | none => zeroStr
          let fio :=
            match rowGet row fioColName with
            | some ov => pyStrip (ov.getD [])
            | none => unknownName
          processRows fns (dictInsert acc sid ⟨fio, (pyInt absStr).getD 0⟩) rest

/-- Source lines 75–76: strip a leading byte-order mark. -/
def dropBom (s : Str) : Str := s.dropWhile (fun c => c = '\uFEFF')

/-- Source lines 94–95: header names, trimmed, empty names discarded. -/
def usableFieldnames (header : Str) : List Str :=
  ((splitOnChar ';' header).map pyStrip).filter (fun n => !n.isEmpty)

/-- parse_csv_data (source lines 70–154).  `prior` is STUDENT_DATA on entry;
line 73 resets it unconditionally before any input is read.  Returns the
function's boolean result together with the final STUDENT_DATA. -/
def parse_csv_data (prior : RecordSet) (content : Str) : Bool × RecordSet :=
  let c := dropBom content
  match splitlines (pyStrip c) with
  | [] => (false, [])
  | h :: dataLines =>
    let header := pyStrip h
    if header.isEmpty then (false, [])
    else
      let fns := usableFieldnames header
      if fns.isEmpty then (false, [])
      else if dataLines.isEmpty then (true, [])
      else processRows fns [] dataLines

/-- csv QUOTE_MINIMAL: a field needs quoting when it contains the delimiter,
a quote or a line break. -/
def needsQuote (f : Str) : Bool :=
  f.any (fun c => c = ';' || c = '"' || c = '\n' || c = '\r')

/-- csv field quoting: doubled inner quotes, surrounding quotes. -/
def quoteField (f : Str) : Str :=
  if needsQuote f then
    '"' :: (f.flatMap (fun c => if c = '"' then ['"', '"'] else [c])) ++ ['"']
  else f

def CRLF : Str := ['\r', '\n']

def hdrNL : Str := hdrStr ++ ['\n']

def hdrCRLF : Str := hdrStr ++ CRLF

/-- One DictWriter row without its terminator: id;ФИО;count. -/
def rowCore (p : Str × StudentRec) : Str :=
  quoteField p.1 ++ (';' :: (quoteField p.2.fio ++ (';' :: quoteField (intRepr p.2.cnt))))

/-- One DictWriter row with the default '\r\n' terminator. -/
def rowOut (p : Str × StudentRec) : Str :=
  rowCore p ++ CRLF

/-- Rows joined by '\r\n' separators, no trailing terminator (proof helper). -/
def interCRLF : List Str → Str
  | [] => []
  | [r] => r
  | r :: rs => r ++ (CRLF ++ interCRLF rs)

/-- Rows joined by single '\n' separators (proof helper). -/
def interNL : List Str → Str
  | [] => []
  | [r] => r
  | r :: rs => r ++ ('\n' :: interNL rs)

/-- convert_data_to_csv_string (source lines 268–286): header plus one row per
STUDENT_DATA entry in dict order; an empty set yields the literal header line
with '\n' (line 271). -/
def convert_data_to_csv_string (m : RecordSet) : Str :=
  if m.isEmpty then hdrNL
  else hdrCRLF ++ (m.map rowOut).foldr (fun a b => a ++ b) []

/-- context.user_data of one conversation participant: the remembered
'registered_id' and the edit flow's 'temp_edit_id'. -/
structure Session where
  registered_id : Option Str := none
  temp_edit_id : Option Str := none
deriving DecidableEq

def GETTING_ID : Int := 0

def GETTING_ABSENCES : Int := 1

/-- telegram.ext.ConversationHandler.END. -/
def CONV_END : Int := -1

def deniedMsg : Str := "❌ У вас нет прав на выполнение этой команды.".data

def editPromptMsg : Str := "📝 **Режим редактирования пропусков**\nВведите ID Номер студента, пропуски которого нужно изменить.".data

def notFoundReply : Str := "❌ Ошибка данных. Пожалуйста, введите свой ID Номер снова.".data

def badCountMsg : Str := "❌ Введите, пожалуйста, только целое положительное число (например, 15). Попробуйте снова или /cancel.".data

def replyP1 : Str := "👤 **Студент:** ".data

def replyP2 : Str := "\n🆔 **ID:** `".data

def replyP3 : Str := "`\n📚 **Количество пропусков (в часах):** ".data

def replyP4 : Str := "\n\n⏳ *Данные предоставлены за ".data

def replyP5 : Str := ".*".data

/-- process_data_request (source lines 322–341): renders the status reply for
an id.  It reads only STUDENT_DATA and LAST_UPDATED_TIME and never touches
user_data, so the session is passed through unchanged. -/
def process_data_request (data : RecordSet) (lastUpdated : Str) (searchId : Str) (sess : Session) : Str × Session :=
  match dictGet data searchId with
  | some st =>
    (replyP1 ++ (st.fio ++ (replyP2 ++ (searchId ++ (replyP3 ++ (intRepr st.cnt ++ (replyP4 ++ (lastUpdated ++ replyP5))))))),
     sess)
  | none => (notFoundReply, sess)

/-- start_edit_pass_command (source lines 411–422): only the configured
administrator may enter the edit conversation. -/
def start_edit_pass_command (adminId userId : Int) (sess : Session) : Int × Str × Session :=
  if userId ≠ adminId then (CONV_END, deniedMsg, sess)
  else (GETTING_ID, editPromptMsg, sess)

def idMissPre : Str := "❌ ID Номер **".data

def idMissPost : Str := "** не найден в базе. Попробуйте снова или нажмите /cancel.".data

def idOkPre : Str := "✅ ID Номер **".data

def idOkMid1 : Str := "** (".data

def idOkMid2 : Str := ") найден.\nТекущее количество пропусков: **".data

def idOkPost : Str := "**.\nВведите **новое** количество пропусков (целое число):".data

/-- get_student_id (source lines 425–446): the AwaitingIdentifier step. -/
def get_student_id (data : RecordSet) (text : Str) (sess : Session) : Int × Str × Session :=
  let sid := pyStrip text
  match dictGet data sid with
  | none => (GETTING_ID, idMissPre ++ (sid ++ idMissPost), sess)
  | some st =>
    (GETTING_ABSENCES,
     idOkPre ++ (sid ++ (idOkMid1 ++ (st.fio ++ (idOkMid2 ++ (intRepr st.cnt ++ idOkPost))))),
     { sess with temp_edit_id := some sid })

def okMsgP1 : Str := "🎉 Успешно!\nПропуски для **".data

def okMsgP2 : Str := "** (`".data

def okMsgP3 : Str := "`) установлены на **".data

def okMsgP4 : Str := "**.\nИзменение зафиксировано на GitHub. Чтобы обновить дату в сообщениях, выполните команду /reload_data.".data

def commitFailMsg : Str := "⚠️ **Критическая ошибка коммита!**\nЛокальные данные обновлены, но коммит на GitHub не удался. Проверьте токен и логи.".data

/-- get_absences_count (source lines 449–490): the AwaitingNewCount step.
Validates the new count, pops temp_edit_id, updates STUDENT_DATA in place,
rebuilds the CSV and commits (`commitOk` abstracts update_github_file's
outcome; the intermediate progress message is omitted).  `none` models an
uncaught KeyError: the pop of a missing temp_edit_id (line 463) or the
unguarded `STUDENT_DATA[student_id]` indexing (lines 464 and 467) when the
pending id is no longer in the record set. -/
def get_absences_count (commitOk : Bool) (data : RecordSet) (text : Str) (sess : Session) : Option (Int × Str × Session × RecordSet) :=
  let s := pyStrip text
  match pyInt s with
  | none => some (GETTING_ABSENCES, badCountMsg, sess, data)
  | some n =>
    if n < 0 then some (GETTING_ABSENCES, badCountMsg, sess, data)
    else
      match sess.temp_edit_id with
      | none => none
      | some sid =>
        match dictGet data sid with
        | none => none
        | some st =>
          let sess2 := { sess with temp_edit_id := none }
          let data2 := dictInsert data sid ⟨st.fio, n⟩
          let msg :=
            if commitOk then
              okMsgP1 ++ (st.fio ++ (okMsgP2 ++ (sid ++ (okMsgP3 ++ (intRepr n ++ okMsgP4)))))
            else commitFailMsg
          some (CONV_END, msg, sess2, data2)

/-- The configuration triple load_data_from_git depends on; `none` models an
unset (or empty, hence falsy) environment variable. -/
structure GitConfig where
  csvUrl : Option Str
  token : Option Str
  repoDetails : Option Str
deriving DecidableEq

/-- Outcome of the commits-API query (source lines 173–197), abstracting the
HTTP round trip: `failure` is any exception (bad split of GIT_REPO_DETAILS,
request error, bad JSON), `emptyList` a success whose commit list is empty or
lacks 'commit' (the timestamp is then left untouched), `stamp t` a success
whose commit date renders as the display string t. -/
inductive MetaOutcome
  | failure
  | emptyList
  | stamp (t : Str)
deriving DecidableEq

/-- load_data_from_git (source lines 157–215).  `fetched` abstracts the
raw-content GET (`none` = request error or bad status).  Takes the prior
global LAST_UPDATED_TIME and STUDENT_DATA and returns (result,
LAST_UPDATED_TIME, STUDENT_DATA) after the call. -/
def load_data_from_git (cfg : GitConfig) (metaOut : MetaOutcome) (fetched : Option Str) (priorTime : Str) (priorData : RecordSet) : Bool × Str × RecordSet :=
  let t1 :=
    if cfg.csvUrl = none ∨ cfg.token = none ∨ cfg.repoDetails = none then unknownTime
    else
      match metaOut with
      | .failure => unknownTime
      | .emptyList => priorTime
      | .stamp t => t
  if cfg.csvUrl = none then (false, t1, priorData)
  else
    match fetched with
    | none => (false, t1, priorData)
    | some text =>
      let r := parse_csv_data priorData text
      (r.1, t1, r.2)

/-- The string `t` occurs contiguously inside `s`. -/
def containsSub (t s : Str) : Prop := ∃ a b, s = a ++ (t ++ b)

/-! ### Concrete fixtures used by counterexamples and witnesses -/

def stdFns : List Str := [idColName, fioColName, cntColName]

def s1 : Str := "1".data

def sA : Str := "A".data

def id123 : Str := "123".data

def id999 : Str := "999".data

def nameIv : Str := "Иванов".data

def exData : RecordSet := [(id123, ⟨nameIv, 3⟩)]

def tNeg1 : Str := "-1".data

def t7 : Str := "7".data

def exC1 : Str := "ID номер;ФИО;Количество пропусков\n1;A;2\n2;B;3;x".data

def exBadLine : Str := "2;B;3;x".data

def exC2 : Str := "ID номер;ФИО;Количество пропусков\n1;A;-3".data

def exHdrOnly : Str := "ID номер;ФИО;Количество пропусков".data

def exWs : Str := "   ".data

def id77 : Str := "77".data

def namePe : Str := "Петров".data

def sAbc : Str := "abc".data

def exC3 : Str := "ID номер;ФИО;Количество пропусков\n123;Иванов;5\n77;Петров;0".data

def exC3L : RecordSet := [(id123, ⟨nameIv, 5⟩), (id77, ⟨namePe, 0⟩)]

def sess123 : Session := { temp_edit_id := some id123 }

/-- A field as the parser itself produces it: whitespace-stripped and free of
the delimiter, line breaks and quotes (the quote-free csv fragment). -/
def goodStr (s : Str) : Prop :=
  pyStrip s = s ∧ ∀ c ∈ s, c ≠ ';' ∧ c ≠ '\n' ∧ c ≠ '\r' ∧ c ≠ '"'

/-- Record sets as produced by a quote-free parse: nonempty good keys, good
names, unique keys. -/
def goodRS (L : RecordSet) : Prop :=
  (∀ p ∈ L, p.1 ≠ [] ∧ goodStr p.1 ∧ goodStr p.2.fio) ∧
  (L.map (fun p => p.1)).Nodup

/-! ### Basic dictionary lemmas -/

theorem dictGet_dictInsert_self (m : RecordSet) (k : Str) (v : StudentRec) :
    dictGet (dictInsert m k v) k = some v := by
  induction m with
  | nil => simp [dictInsert, dictGet]
  | cons p rest ih =>
    obtain ⟨k0, v0⟩ := p
    by_cases h : k0 = k
    · simp [dictInsert, dictGet, h]
    · simp [dictInsert, dictGet, h, ih]

/-! ### Lemmas about the string primitives -/

theorem splitOnChar_ne_nil (c : Char) (s : Str) : splitOnChar c s ≠ [] := by
  cases s with
  | nil => simp [splitOnChar]
  | cons x xs =>
    unfold splitOnChar
    dsimp only []
    split <;> simp

theorem splitOnChar_not_mem (c : Char) (s : Str) (h : c ∉ s) : splitOnChar c s = [s] := by
  induction s with
  | nil => rfl
  | cons x xs ih =>
    have hx : ¬ x = c := by
      rintro rfl
      exact h (List.mem_cons_self _ _)
    have hxs : c ∉ xs := fun hm => h (List.mem_cons_of_mem _ hm)
    unfold splitOnChar
    dsimp only []
    rw [if_neg hx, ih hxs]
    rfl

theorem splitOnChar_append (c : Char) (a rest : Str) (h : c ∉ a) :
    splitOnChar c (a ++ c :: rest) = a :: splitOnChar c rest := by
  induction a with
  | nil => simp [splitOnChar]
  | cons x xs ih =>
    have hx : ¬ x = c := by
      rintro rfl
      exact h (List.mem_cons_self _ _)
    have hxs : c ∉ xs := fun hm => h (List.mem_cons_of_mem _ hm)
    rw [List.cons_append]
    conv_lhs => rw [splitOnChar]
    rw [if_neg hx, ih hxs]
    simp

theorem mem_splitOnChar (c : Char) (s : Str) :
    ∀ p ∈ splitOnChar c s, ∀ x ∈ p, x ∈ s ∧ x ≠ c := by
  induction s with
  | nil =>
    intro p hp x hx
    simp [splitOnChar] at hp
    subst hp
    simp at hx
  | cons y ys ih =>
    intro p hp x hx
    unfold splitOnChar at hp
    dsimp only [] at hp
    by_cases h : y = c
    · rw [if_pos h] at hp
      rcases List.mem_cons.mp hp with rfl | hp2
      · simp at hx
      · have := ih p hp2 x hx
        exact ⟨List.mem_cons_of_mem _ this.1, this.2⟩
    · rw [if_neg h] at hp
      cases hs : splitOnChar c ys with
      | nil => exact absurd hs (splitOnChar_ne_nil c ys)
      | cons q qs =>
        rw [hs] at hp
        rcases List.mem_cons.mp hp with rfl | hp2
        · rcases List.mem_cons.mp hx with rfl | hx2
          · exact ⟨List.mem_cons_self _ _, h⟩
          · have := ih q (by rw [hs]; exact List.mem_cons_self _ _) x hx2
            exact ⟨List.mem_cons_of_mem _ this.1, this.2⟩
        · have := ih p (by rw [hs]; exact List.mem_cons_of_mem _ hp2) x hx
          exact ⟨List.mem_cons_of_mem _ this.1, this.2⟩

theorem normEol_crlf (ys : Str) : normEol ('\r' :: '\n' :: ys) = '\n' :: normEol ys := rfl

theorem normEol_cr_block (ys : Str) (h : ∀ zs, ys = '\n' :: zs → False) :
    normEol ('\r' :: ys) = '\n' :: normEol ys :=
  normEol.eq_3 ys h

theorem normEol_cons_ne (x : Char) (xs : Str) (h : x ≠ '\r') :
    normEol (x :: xs) = x :: normEol xs :=
  normEol.eq_4 x xs (fun _ hx _ => h hx) (fun hx => h hx)

theorem normEol_append_noCR (a b : Str) (h : ∀ y ∈ a, y ≠ '\r') :
    normEol (a ++ b) = a ++ normEol b := by
  induction a with
  | nil => rfl
  | cons x xs ih =>
    rw [List.cons_append, normEol_cons_ne x _ (h x (List.mem_cons_self _ _)),
        ih (fun y hy => h y (List.mem_cons_of_mem _ hy)), List.cons_append]

theorem normEol_eq_self (s : Str) (h : ∀ y ∈ s, y ≠ '\r') : normEol s = s := by
  have := normEol_append_noCR s [] h
  simpa [normEol.eq_1] using this

theorem normEol_no_cr (s : Str) : '\r' ∉ normEol s := by
  induction s using normEol.induct with
  | case1 => simp [normEol]
  | case2 ys ih =>
    rw [normEol_crlf]
    simp only [List.mem_cons]
    rintro (h | h)
    · exact absurd h (by decide)
    · exact ih h
  | case3 ys h ih =>
    rw [normEol_cr_block ys h]
    simp only [List.mem_cons]
    rintro (hc | hc)
    · exact absurd hc (by decide)
    · exact ih hc
  | case4 x xs h1 h2 ih =>
    rw [normEol_cons_ne x xs (fun hx => h2 hx)]
    simp only [List.mem_cons]
    rintro (hc | hc)
    · exact h2 hc.symm
    · exact ih hc

theorem mem_normEol (s : Str) (x : Char) (hx : x ∈ normEol s) : x ∈ s ∨ x = '\n' := by
  induction s using normEol.induct with
  | case1 => simp [normEol] at hx
  | case2 ys ih =>
    rw [normEol_crlf] at hx
    rcases List.mem_cons.mp hx with rfl | hx2
    · exact Or.inr rfl
    · rcases ih hx2 with h | h
      · exact Or.inl (by simp [h])
      · exact Or.inr h
  | case3 ys h ih =>
    rw [normEol_cr_block ys h] at hx
    rcases List.mem_cons.mp hx with rfl | hx2
    · exact Or.inr rfl
    · rcases ih hx2 with h2 | h2
      · exact Or.inl (by simp [h2])
      · exact Or.inr h2
  | case4 y xs h1 h2 ih =>
    rw [normEol_cons_ne y xs (fun hy => h2 hy)] at hx
    rcases List.mem_cons.mp hx with rfl | hx2
    · exact Or.inl (List.mem_cons_self _ _)
    · rcases ih hx2 with h2 | h2
      · exact Or.inl (List.mem_cons_of_mem _ h2)
      · exact Or.inr h2

theorem dropWhile_idem (p : Char → Bool) (l : Str) :
    List.dropWhile p (List.dropWhile p l) = List.dropWhile p l := by
  induction l with
  | nil => rfl
  | cons x xs ih =>
    rw [List.dropWhile_cons]
    by_cases h : p x = true
    · rw [if_pos h]
      exact ih
    · rw [if_neg h, List.dropWhile_cons, if_neg h]

theorem dropLead_idem (s : Str) : dropLead (dropLead s) = dropLead s := by
  unfold dropLead
  exact dropWhile_idem _ _

theorem dropTrail_idem (l : Str) : dropTrail (dropTrail l) = dropTrail l := by
  unfold dropTrail
  rw [List.reverse_reverse, dropWhile_idem]

theorem dropTrail_concat_notWS (a : Str) (d : Char) (h : isWS d = false) :
    dropTrail (a ++ [d]) = a ++ [d] := by
  unfold dropTrail
  rw [List.reverse_append]
  simp [List.dropWhile_cons, h]

theorem dropTrail_concat_WS (a : Str) (d : Char) (h : isWS d = true) :
    dropTrail (a ++ [d]) = dropTrail a := by
  unfold dropTrail
  rw [List.reverse_append]
  simp [List.dropWhile_cons, h]

theorem dropTrail_crlf (a : Str) : dropTrail (a ++ CRLF) = dropTrail a := by
  have h1 : a ++ CRLF = (a ++ ['\r']) ++ ['\n'] := by simp [CRLF]
  rw [h1, dropTrail_concat_WS _ _ (by decide), dropTrail_concat_WS _ _ (by decide)]

theorem dropLead_cons_notWS (x : Char) (xs : Str) (h : isWS x = false) :
    dropLead (x :: xs) = x :: xs := by
  unfold dropLead
  rw [List.dropWhile_cons, if_neg (by simp [h])]

theorem mem_dropLead (s : Str) (x : Char) (hx : x ∈ dropLead s) : x ∈ s :=
  List.Sublist.mem hx (List.IsSuffix.sublist (List.dropWhile_suffix isWS))

theorem mem_dropTrail (s : Str) (x : Char) (hx : x ∈ dropTrail s) : x ∈ s := by
  unfold dropTrail at hx
  rw [List.mem_reverse] at hx
  have h2 := List.Sublist.mem hx (List.IsSuffix.sublist (List.dropWhile_suffix isWS))
  rwa [List.mem_reverse] at h2

theorem mem_pyStrip (s : Str) (x : Char) (hx : x ∈ pyStrip s) : x ∈ s :=
  mem_dropLead s x (mem_dropTrail (dropLead s) x hx)

theorem dropLead_no_ws (s : Str) (h : ∀ c ∈ s, isWS c = false) : dropLead s = s := by
  cases s with
  | nil => rfl
  | cons x xs => exact dropLead_cons_notWS x xs (h x (List.mem_cons_self _ _))

theorem dropTrail_no_ws (s : Str) (h : ∀ c ∈ s, isWS c = false) : dropTrail s = s := by
  unfold dropTrail
  cases hrev : s.reverse with
  | nil =>
    have hs : s = [] := List.reverse_eq_nil_iff.mp hrev
    simp [hs]
  | cons y t =>
    have hy : y ∈ s := by
      rw [← List.mem_reverse, hrev]
      exact List.mem_cons_self _ _
    rw [List.dropWhile_cons, if_neg (by simp [h y hy]), ← hrev, List.reverse_reverse]

theorem pyStrip_no_ws (s : Str) (h : ∀ c ∈ s, isWS c = false) : pyStrip s = s := by
  unfold pyStrip
  rw [dropLead_no_ws s h, dropTrail_no_ws s h]

theorem dropLead_dropTrail_stable (u : Str) (hu : dropLead u = u) :
    dropLead (dropTrail u) = dropTrail u := by
  cases u with
  | nil => rfl
  | cons x xs =>
    have hx : isWS x = false := by
      cases hw : isWS x with
      | false => rfl
      | true =>
        have h1 : dropLead (x :: xs) = List.dropWhile isWS xs := by
          unfold dropLead
          rw [List.dropWhile_cons, if_pos hw]
        rw [hu] at h1
        have h2 : (List.dropWhile isWS xs).length ≤ xs.length :=
          List.Sublist.length_le (List.IsSuffix.sublist (List.dropWhile_suffix isWS))
        rw [← h1] at h2
        simp at h2
    obtain ⟨t, ht⟩ := List.dropWhile_suffix (l := (x :: xs).reverse) isWS
    have hform : dropTrail (x :: xs) ++ t.reverse = x :: xs := by
      have h3 := congrArg List.reverse ht
      rw [List.reverse_append, List.reverse_reverse] at h3
      exact h3
    cases hd : dropTrail (x :: xs) with
    | nil => rfl
    | cons y ys =>
      have hxy : y = x := by
        rw [hd, List.cons_append] at hform
        exact (List.cons.injEq _ _ _ _ ▸ hform).1
      rw [hxy] at hd ⊢
      exact dropLead_cons_notWS x ys hx

theorem pyStrip_idem (s : Str) : pyStrip (pyStrip s) = pyStrip s := by
  unfold pyStrip
  rw [dropLead_dropTrail_stable (dropLead s) (dropLead_idem s), dropTrail_idem]

/-! ### Lemmas about Python int() and str() of integers -/

theorem digitChar_ge9 (k : Nat) : digitChar (k + 9) = '9' := rfl

theorem digitChar_props (k : Nat) :
    (digitChar k).isDigit = true ∧ isWS (digitChar k) = false ∧
    digitChar k ≠ ';' ∧ digitChar k ≠ '\r' ∧ digitChar k ≠ '\n' ∧
    digitChar k ≠ '"' ∧ digitChar k ≠ '_' ∧ digitChar k ≠ '+' ∧ digitChar k ≠ '-' := by
  by_cases h : k < 9
  · interval_cases k <;> decide
  · obtain ⟨m, rfl⟩ : ∃ m, k = m + 9 := ⟨k - 9, by omega⟩
    rw [digitChar_ge9 m]
    decide

theorem dval_digitChar (k : Nat) (hk : k < 10) : dval (digitChar k) = k := by
  interval_cases k <;> decide

theorem pyDigitsAux_cons (acc : Nat) (c : Char) (cs : Str)
    (h1 : c ≠ '_') (h2 : c.isDigit = true) :
    pyDigitsAux acc (c :: cs) = pyDigitsAux (acc * 10 + dval c) cs := by
  rw [pyDigitsAux.eq_def]
  simp [h1, h2]

theorem natReprAux_ne_nil (fuel n : Nat) (h : n < fuel) : natReprAux fuel n ≠ [] := by
  cases fuel with
  | zero => omega
  | succ fuel =>
    unfold natReprAux
    by_cases h10 : n < 10
    · simp [h10]
    · simp [h10]

theorem natReprAux_chars (fuel : Nat) :
    ∀ n, n < fuel → ∀ c ∈ natReprAux fuel n, ∃ k, k < 10 ∧ c = digitChar k := by
  induction fuel with
  | zero =>
    intro n hn
    omega
  | succ fuel ih =>
    intro n hn c hc
    unfold natReprAux at hc
    by_cases h10 : n < 10
    · rw [if_pos h10] at hc
      rcases List.mem_cons.mp hc with rfl | hc2
      · exact ⟨n, h10, rfl⟩
      · simp at hc2
    · rw [if_neg h10] at hc
      rcases List.mem_append.mp hc with hc2 | hc2
      · have hdiv : n / 10 < fuel := by omega
        exact ih (n / 10) hdiv c hc2
      · rcases List.mem_singleton.mp hc2 with rfl
        exact ⟨n % 10, Nat.mod_lt _ (by omega), rfl⟩

theorem natReprAux_last (fuel n : Nat) (h : n < fuel) :
    ∃ A k, k < 10 ∧ natReprAux fuel n = A ++ [digitChar k] := by
  cases fuel with
  | zero => omega
  | succ fuel =>
    unfold natReprAux
    by_cases h10 : n < 10
    · exact ⟨[], n, h10, by rw [if_pos h10]; rfl⟩
    · exact ⟨natReprAux fuel (n / 10), n % 10, Nat.mod_lt _ (by omega), by rw [if_neg h10]⟩

theorem pyDigitsAux_natReprAux (fuel : Nat) :
    ∀ n acc (t : Str), n < fuel →
      pyDigitsAux acc (natReprAux fuel n ++ t) =
        pyDigitsAux (acc * 10 ^ (natReprAux fuel n).length + n) t := by
  induction fuel with
  | zero =>
    intro n acc t hn
    omega
  | succ fuel ih =>
    intro n acc t hn
    unfold natReprAux
    by_cases h10 : n < 10
    · rw [if_pos h10, List.cons_append, List.nil_append,
          pyDigitsAux_cons _ _ _ (digitChar_props n).2.2.2.2.2.2.1 (digitChar_props n).1,
          dval_digitChar n h10]
      simp
    · rw [if_neg h10]
      have hdiv : n / 10 < fuel := by omega
      rw [List.append_assoc, List.singleton_append, ih (n / 10) acc _ hdiv,
          pyDigitsAux_cons _ _ _ (digitChar_props (n % 10)).2.2.2.2.2.2.1
            (digitChar_props (n % 10)).1,
          dval_digitChar (n % 10) (Nat.mod_lt _ (by omega))]
      congr 1
      rw [List.length_append, List.length_singleton, pow_succ]
      have hdm := Nat.div_add_mod n 10
      have e1 : (acc * 10 ^ (natReprAux fuel (n / 10)).length + n / 10) * 10 + n % 10 =
          acc * (10 ^ (natReprAux fuel (n / 10)).length * 10) + (10 * (n / 10) + n % 10) := by
        ring
      rw [e1, hdm]

theorem pyDigits_natRepr (n : Nat) : pyDigits (natRepr n) = some n := by
  have hlt : n < n + 1 := Nat.lt_succ_self n
  have hmain := pyDigitsAux_natReprAux (n + 1) n 0 [] hlt
  rw [List.append_nil] at hmain
  have hclose : pyDigitsAux (0 * 10 ^ (natReprAux (n + 1) n).length + n) [] =
      some (0 * 10 ^ (natReprAux (n + 1) n).length + n) := rfl
  rw [hclose] at hmain
  simp only [Nat.zero_mul, Nat.zero_add] at hmain
  cases hA : natReprAux (n + 1) n with
  | nil => exact absurd hA (natReprAux_ne_nil (n + 1) n hlt)
  | cons c cs =>
    obtain ⟨k, hk, rfl⟩ :=
      natReprAux_chars (n + 1) n hlt c (by rw [hA]; exact List.mem_cons_self _ _)
    rw [hA, pyDigitsAux_cons _ _ _ (digitChar_props k).2.2.2.2.2.2.1
        (digitChar_props k).1] at hmain
    unfold natRepr
    rw [hA]
    unfold pyDigits
    dsimp only []
    rw [if_pos (digitChar_props k).1]
    simpa using hmain

theorem natRepr_chars (n : Nat) :
    ∀ c ∈ natRepr n, isWS c = false ∧ c ≠ ';' ∧ c ≠ '\r' ∧ c ≠ '\n' ∧ c ≠ '"' := by
  intro c hc
  obtain ⟨k, _, rfl⟩ := natReprAux_chars (n + 1) n (Nat.lt_succ_self n) c hc
  obtain ⟨_, h2, h3, h4, h5, h6, _⟩ := digitChar_props k
  exact ⟨h2, h3, h4, h5, h6⟩

theorem intRepr_chars (n : Int) :
    ∀ c ∈ intRepr n, isWS c = false ∧ c ≠ ';' ∧ c ≠ '\r' ∧ c ≠ '\n' ∧ c ≠ '"' := by
  intro c hc
  unfold intRepr at hc
  by_cases hn : n < 0
  · rw [if_pos hn] at hc
    rcases List.mem_cons.mp hc with rfl | hc2
    · exact ⟨by decide, by decide, by decide, by decide, by decide⟩
    · exact natRepr_chars _ c hc2
  · rw [if_neg hn] at hc
    exact natRepr_chars _ c hc

theorem intRepr_ne_nil (n : Int) : intRepr n ≠ [] := by
  unfold intRepr
  by_cases hn : n < 0
  · rw [if_pos hn]
    exact List.cons_ne_nil _ _
  · rw [if_neg hn]
    unfold natRepr
    exact natReprAux_ne_nil _ _ (Nat.lt_succ_self _)

theorem pyStrip_intRepr (n : Int) : pyStrip (intRepr n) = intRepr n :=
  pyStrip_no_ws _ (fun c hc => (intRepr_chars n c hc).1)

theorem needsQuote_intRepr (n : Int) : needsQuote (intRepr n) = false := by
  unfold needsQuote
  rw [List.any_eq_false]
  intro c hc
  obtain ⟨_, h2, h3, h4, h5⟩ := intRepr_chars n c hc
  simp [h2, h3, h4, h5]

theorem intRepr_last (n : Int) : ∃ A d, intRepr n = A ++ [d] ∧ isWS d = false := by
  obtain ⟨A, k, hk, hA⟩ := natReprAux_last (n.natAbs + 1) n.natAbs (Nat.lt_succ_self _)
  unfold intRepr natRepr
  by_cases hn : n < 0
  · rw [if_pos hn, hA]
    exact ⟨'-' :: A, digitChar k, by rw [List.cons_append], (digitChar_props k).2.1⟩
  · rw [if_neg hn, hA]
    exact ⟨A, digitChar k, rfl, (digitChar_props k).2.1⟩

theorem pyInt_intRepr (n : Int) : pyInt (intRepr n) = some n := by
  unfold pyInt
  rw [pyStrip_intRepr]
  by_cases hn : n < 0
  · have hrepr : intRepr n = '-' :: natRepr n.natAbs := by
      unfold intRepr
      rw [if_pos hn]
    rw [hrepr]
    split
    · rename_i rest heq
      exact absurd (List.head_eq_of_cons_eq heq) (by decide)
    · rename_i rest heq
      rw [← List.tail_eq_of_cons_eq heq, pyDigits_natRepr]
      show some (-(n.natAbs : Int)) = some n
      congr 1
      omega
    · rename_i hne1 hne2
      exact absurd rfl (hne2 (natRepr n.natAbs))
  · have hrepr : intRepr n = natRepr n.natAbs := by
      unfold intRepr
      rw [if_neg hn]
    cases hA : natRepr n.natAbs with
    | nil =>
      exfalso
      apply natReprAux_ne_nil (n.natAbs + 1) n.natAbs (Nat.lt_succ_self _)
      rw [← natRepr]
      exact hA
    | cons c cs =>
      obtain ⟨k, hk, rfl⟩ :=
        natReprAux_chars (n.natAbs + 1) n.natAbs (Nat.lt_succ_self _) c
          (by rw [← natRepr, hA]; exact List.mem_cons_self _ _)
      rw [hrepr, hA]
      split
      · rename_i rest heq
        exact absurd (List.head_eq_of_cons_eq heq) (digitChar_props k).2.2.2.2.2.2.2.1
      · rename_i rest heq
        exact absurd (List.head_eq_of_cons_eq heq) (digitChar_props k).2.2.2.2.2.2.2.2
      · rw [← hA, pyDigits_natRepr]
        show some ((n.natAbs : Int)) = some n
        congr 1
        omega

theorem pyInt_pyStrip (s : Str) : pyInt (pyStrip s) = pyInt s := by
  unfold pyInt
  rw [pyStrip_idem]

/-! ### Shape of the serialized CSV text -/

theorem foldr_rows_eq_interCRLF (cores : List Str) (hne : cores ≠ []) :
    cores.foldr (fun r acc => r ++ (CRLF ++ acc)) [] = interCRLF cores ++ CRLF := by
  induction cores with
  | nil => exact absurd rfl hne
  | cons c rs ih =>
    cases rs with
    | nil => simp [interCRLF]
    | cons q rs2 =>
      rw [List.foldr_cons, ih (List.cons_ne_nil _ _)]
      show c ++ (CRLF ++ (interCRLF (q :: rs2) ++ CRLF)) = interCRLF (c :: q :: rs2) ++ CRLF
      rw [show interCRLF (c :: q :: rs2) = c ++ (CRLF ++ interCRLF (q :: rs2)) from rfl]
      simp [List.append_assoc]

theorem interCRLF_last (cores : List Str) (hne : cores ≠ [])
    (h : ∀ r ∈ cores, ∃ A d, r = A ++ [d] ∧ isWS d = false) :
    ∃ A d, interCRLF cores = A ++ [d] ∧ isWS d = false := by
  induction cores with
  | nil => exact absurd rfl hne
  | cons c rs ih =>
    cases rs with
    | nil =>
      obtain ⟨A, d, hA, hd⟩ := h c (List.mem_cons_self _ _)
      exact ⟨A, d, hA, hd⟩
    | cons q rs2 =>
      obtain ⟨A, d, hA, hd⟩ :=
        ih (List.cons_ne_nil _ _) (fun r hr => h r (List.mem_cons_of_mem _ hr))
      refine ⟨c ++ (CRLF ++ A), d, ?_, hd⟩
      rw [show interCRLF (c :: q :: rs2) = c ++ (CRLF ++ interCRLF (q :: rs2)) from rfl, hA]
      simp [List.append_assoc]

theorem normEol_interCRLF (cores : List Str)
    (h : ∀ r ∈ cores, ∀ c ∈ r, c ≠ '\r') :
    normEol (interCRLF cores) = interNL cores := by
  induction cores with
  | nil => rfl
  | cons c rs ih =>
    cases rs with
    | nil =>
      show normEol c = c
      exact normEol_eq_self c (h c (List.mem_cons_self _ _))
    | cons q rs2 =>
      rw [show interCRLF (c :: q :: rs2) = c ++ (CRLF ++ interCRLF (q :: rs2)) from rfl,
          normEol_append_noCR c _ (h c (List.mem_cons_self _ _)),
          show CRLF ++ interCRLF (q :: rs2) = '\r' :: '\n' :: interCRLF (q :: rs2) from rfl,
          normEol_crlf, ih (fun r hr => h r (List.mem_cons_of_mem _ hr))]
      rfl

theorem splitOnChar_interNL (rows : List Str) (hne : rows ≠ [])
    (h : ∀ r ∈ rows, '\n' ∉ r) :
    splitOnChar '\n' (interNL rows) = rows := by
  induction rows with
  | nil => exact absurd rfl hne
  | cons c rs ih =>
    cases rs with
    | nil =>
      show splitOnChar '\n' c = [c]
      exact splitOnChar_not_mem _ c (h c (List.mem_cons_self _ _))
    | cons q rs2 =>
      rw [show interNL (c :: q :: rs2) = c ++ ('\n' :: interNL (q :: rs2)) from rfl,
          splitOnChar_append _ _ _ (h c (List.mem_cons_self _ _)),
          ih (List.cons_ne_nil _ _) (fun r hr => h r (List.mem_cons_of_mem _ hr))]

theorem getLast?_ne_some_nil (l : List Str) (h : ∀ r ∈ l, r ≠ []) :
    l.getLast? ≠ some [] := by
  induction l with
  | nil => simp
  | cons c rs ih =>
    cases rs with
    | nil =>
      simp only [List.getLast?_singleton]
      intro hc
      exact h c (List.mem_cons_self _ _) (Option.some_inj.mp hc)
    | cons q rs2 =>
      rw [List.getLast?_cons_cons]
      exact ih (fun r hr => h r (List.mem_cons_of_mem _ hr))

theorem dropBom_hdr_append (rest : Str) : dropBom (hdrStr ++ rest) = hdrStr ++ rest := by
  rw [show hdrStr ++ rest = 'I' :: ("D номер;ФИО;Количество пропусков".data ++ rest) from rfl]
  unfold dropBom
  rw [List.dropWhile_cons, if_neg (by decide)]

theorem pyStrip_serialized (cores : List Str) (hne : cores ≠ [])
    (hlast : ∀ r ∈ cores, ∃ A d, r = A ++ [d] ∧ isWS d = false) :
    pyStrip (hdrStr ++ (CRLF ++ (interCRLF cores ++ CRLF))) =
      hdrStr ++ (CRLF ++ interCRLF cores) := by
  unfold pyStrip
  have hlead : dropLead (hdrStr ++ (CRLF ++ (interCRLF cores ++ CRLF))) =
      hdrStr ++ (CRLF ++ (interCRLF cores ++ CRLF)) := by
    rw [show hdrStr ++ (CRLF ++ (interCRLF cores ++ CRLF)) =
        'I' :: ("D номер;ФИО;Количество пропусков".data ++ (CRLF ++ (interCRLF cores ++ CRLF)))
        from rfl]
    exact dropLead_cons_notWS _ _ (by decide)
  rw [hlead]
  have e1 : hdrStr ++ (CRLF ++ (interCRLF cores ++ CRLF)) =
      (hdrStr ++ (CRLF ++ interCRLF cores)) ++ CRLF := by
    simp [List.append_assoc]
  rw [e1, dropTrail_crlf]
  obtain ⟨A, d, hA, hd⟩ := interCRLF_last cores hne hlast
  have e2 : hdrStr ++ (CRLF ++ interCRLF cores) = (hdrStr ++ (CRLF ++ A)) ++ [d] := by
    rw [hA]
    simp [List.append_assoc]
  rw [e2, dropTrail_concat_notWS _ _ hd, ← e2]

theorem splitlines_serialized (cores : List Str) (hne : cores ≠ [])
    (hnn : ∀ r ∈ cores, r ≠ [])
    (hnoeol : ∀ r ∈ cores, ∀ c ∈ r, c ≠ '\n' ∧ c ≠ '\r') :
    splitlines (hdrStr ++ (CRLF ++ interCRLF cores)) = hdrStr :: cores := by
  have hnormHdr : ∀ y ∈ hdrStr, y ≠ '\r' := by decide
  have hnorm : normEol (hdrStr ++ (CRLF ++ interCRLF cores)) =
      hdrStr ++ ('\n' :: interNL cores) := by
    rw [normEol_append_noCR _ _ hnormHdr,
        show CRLF ++ interCRLF cores = '\r' :: '\n' :: interCRLF cores from rfl,
        normEol_crlf, normEol_interCRLF cores (fun r hr c hc => (hnoeol r hr c hc).2)]
  have hinter : hdrStr ++ ('\n' :: interNL cores) = interNL (hdrStr :: cores) := by
    cases cores with
    | nil => exact absurd rfl hne
    | cons q rs => rfl
  have hsplit : splitOnChar '\n' (normEol (hdrStr ++ (CRLF ++ interCRLF cores))) =
      hdrStr :: cores := by
    rw [hnorm, hinter]
    apply splitOnChar_interNL _ (List.cons_ne_nil _ _)
    intro r hr
    rcases List.mem_cons.mp hr with rfl | hr2
    · decide
    · intro hc
      exact (hnoeol r hr2 '\n' hc).1 rfl
  unfold splitlines
  rw [hsplit, if_neg]
  apply getLast?_ne_some_nil
  intro r hr
  rcases List.mem_cons.mp hr with rfl | hr2
  · decide
  · exact hnn r hr2

/-! ### Dictionary and row lemmas -/

theorem dictInsert_fresh (m : RecordSet) (k : Str) (v : StudentRec)
    (h : k ∉ keysOf m) : dictInsert m k v = m ++ [(k, v)] := by
  induction m with
  | nil => rfl
  | cons p rest ih =>
    obtain ⟨k0, v0⟩ := p
    have hk0 : ¬ k0 = k := by
      rintro rfl
      exact h (List.mem_cons_self _ _)
    unfold dictInsert
    rw [if_neg hk0, ih (fun hm => h (List.mem_cons_of_mem _ hm))]
    rfl

theorem keysOf_dictInsert (m : RecordSet) (k : Str) (v : StudentRec) :
    keysOf (dictInsert m k v) =
      if k ∈ keysOf m then keysOf m else keysOf m ++ [k] := by
  induction m with
  | nil =>
    rw [show dictInsert [] k v = [(k, v)] from rfl, if_neg (by simp [keysOf])]
    rfl
  | cons p rest ih =>
    obtain ⟨k0, v0⟩ := p
    unfold dictInsert
    by_cases h : k0 = k
    · rw [if_pos h]
      have hmem : k ∈ keysOf ((k0, v0) :: rest) := by
        rw [show keysOf ((k0, v0) :: rest) = k0 :: keysOf rest from rfl, h]
        exact List.mem_cons_self _ _
      rw [if_pos hmem]
      rfl
    · rw [if_neg h,
          show keysOf ((k0, v0) :: dictInsert rest k v) =
            k0 :: keysOf (dictInsert rest k v) from rfl,
          ih]
      by_cases hm : k ∈ keysOf rest
      · rw [if_pos hm,
            if_pos (show k ∈ keysOf ((k0, v0) :: rest) from by
              rw [show keysOf ((k0, v0) :: rest) = k0 :: keysOf rest from rfl]
              exact List.mem_cons_of_mem _ hm)]
        rfl
      · have hnot : k ∉ keysOf ((k0, v0) :: rest) := by
          rw [show keysOf ((k0, v0) :: rest) = k0 :: keysOf rest from rfl]
          intro hc
          rcases List.mem_cons.mp hc with hc2 | hc2
          · exact h hc2.symm
          · exact hm hc2
        rw [if_neg hm, if_neg hnot]
        rfl

theorem nodup_keys_dictInsert (m : RecordSet) (k : Str) (v : StudentRec)
    (h : (m.map (fun p => p.1)).Nodup) :
    ((dictInsert m k v).map (fun p => p.1)).Nodup := by
  have hk := keysOf_dictInsert m k v
  unfold keysOf at hk
  rw [hk]
  by_cases hm : k ∈ m.map (fun p => p.1)
  · rw [if_pos hm]
    exact h
  · rw [if_neg hm, List.nodup_append]
    refine ⟨h, List.nodup_cons.mpr ⟨by simp, List.nodup_nil⟩, ?_⟩
    intro a ha hb
    rw [List.mem_singleton] at hb
    subst hb
    exact hm ha

theorem mem_dictInsert (m : RecordSet) (k : Str) (v : StudentRec) (p : Str × StudentRec)
    (hp : p ∈ dictInsert m k v) : p ∈ m ∨ (p.1 = k ∧ p.2 = v) := by
  induction m with
  | nil =>
    simp [dictInsert] at hp
    subst hp
    exact Or.inr ⟨rfl, rfl⟩
  | cons q rest ih =>
    obtain ⟨k0, v0⟩ := q
    unfold dictInsert at hp
    by_cases h : k0 = k
    · rw [if_pos h] at hp
      rcases List.mem_cons.mp hp with rfl | hp2
      · exact Or.inr ⟨h, rfl⟩
      · exact Or.inl (List.mem_cons_of_mem _ hp2)
    · rw [if_neg h] at hp
      rcases List.mem_cons.mp hp with rfl | hp2
      · exact Or.inl (List.mem_cons_self _ _)
      · rcases ih hp2 with h2 | h2
        · exact Or.inl (List.mem_cons_of_mem _ h2)
        · exact Or.inr h2

theorem rowGet_zipPad_mem (fns : List Str) :
    ∀ (fields : List Str) (key : Str) (ov : Option Str) (v : Str),
      rowGet (zipPad fns fields) key = some ov → ov = some v → v ∈ fields := by
  induction fns with
  | nil =>
    intro fields key ov v h hv
    simp [zipPad, rowGet] at h
  | cons f fs ih =>
    intro fields key ov v h hv
    cases fields with
    | nil =>
      rw [show zipPad (f :: fs) [] = (f, none) :: zipPad fs [] from rfl] at h
      unfold rowGet at h
      cases hr : rowGet (zipPad fs []) key with
      | some r =>
        rw [hr] at h
        exact ih [] key ov v (by rw [hr, Option.some_inj.mp h]) hv
      | none =>
        rw [hr] at h
        by_cases hf : f = key
        · rw [if_pos hf] at h
          rw [← Option.some_inj.mp h] at hv
          exact absurd hv (by simp)
        · rw [if_neg hf] at h
          exact absurd h (by simp)
    | cons x xs =>
      rw [show zipPad (f :: fs) (x :: xs) = (f, some x) :: zipPad fs xs from rfl] at h
      unfold rowGet at h
      cases hr : rowGet (zipPad fs xs) key with
      | some r =>
        rw [hr] at h
        exact List.mem_cons_of_mem _
          (ih xs key ov v (by rw [hr, Option.some_inj.mp h]) hv)
      | none =>
        rw [hr] at h
        by_cases hf : f = key
        · rw [if_pos hf] at h
          rw [← Option.some_inj.mp h] at hv
          rw [Option.some_inj.mp hv]
          exact List.mem_cons_self _ _
        · rw [if_neg hf] at h
          exact absurd h (by simp)

theorem quoteField_good (f : Str)
    (h : ∀ c ∈ f, c ≠ ';' ∧ c ≠ '\n' ∧ c ≠ '\r' ∧ c ≠ '"') :
    quoteField f = f := by
  unfold quoteField
  rw [if_neg]
  intro hq
  unfold needsQuote at hq
  rw [List.any_eq_true] at hq
  obtain ⟨c, hc, hcc⟩ := hq
  obtain ⟨h1, h2, h3, h4⟩ := h c hc
  simp [h1, h2, h3, h4] at hcc

theorem quoteField_intRepr (n : Int) : quoteField (intRepr n) = intRepr n := by
  unfold quoteField
  rw [needsQuote_intRepr]
  simp

theorem zipPad_std (x y z : Str) :
    zipPad stdFns [x, y, z] =
      [(idColName, some x), (fioColName, some y), (cntColName, some z)] := rfl

theorem rowGet_std_id (x y z : Str) :
    rowGet (zipPad stdFns [x, y, z]) idColName = some (some x) := by
  rw [zipPad_std]
  simp only [rowGet]
  rw [if_neg (show ¬ cntColName = idColName from by decide),
      if_neg (show ¬ fioColName = idColName from by decide)]
  simp

theorem rowGet_std_fio (x y z : Str) :
    rowGet (zipPad stdFns [x, y, z]) fioColName = some (some y) := by
  rw [zipPad_std]
  simp only [rowGet]
  rw [if_neg (show ¬ cntColName = fioColName from by decide)]
  simp

theorem rowGet_std_cnt (x y z : Str) :
    rowGet (zipPad stdFns [x, y, z]) cntColName = some (some z) := by
  rw [zipPad_std]
  simp only [rowGet]
  simp

theorem rowIsBlank_std (x y z : Str) (h : x.isEmpty = false) :
    rowIsBlank stdFns [x, y, z] = false := by
  unfold rowIsBlank
  rw [show dedupFirst stdFns = stdFns from by decide]
  rw [show stdFns = [idColName, fioColName, cntColName] from rfl]
  rw [List.all_cons]
  rw [show (zipPad [idColName, fioColName, cntColName] [x, y, z]) =
      zipPad stdFns [x, y, z] from rfl]
  rw [rowGet_std_id]
  simp [h]

theorem processRows_std_row (acc : RecordSet) (idf fio cnt : Str) (rest : List Str)
    (h1 : ';' ∉ idf) (h2 : ';' ∉ fio) (h3 : ';' ∉ cnt)
    (hid : (pyStrip idf).isEmpty = false) :
    processRows stdFns acc ((idf ++ (';' :: (fio ++ (';' :: cnt)))) :: rest) =
      processRows stdFns
        (dictInsert acc (pyStrip idf) ⟨pyStrip fio, (pyInt cnt).getD 0⟩) rest := by
  have hidraw : idf.isEmpty = false := by
    cases hif : idf with
    | nil =>
      exfalso
      rw [hif] at hid
      exact absurd hid (by decide)
    | cons a b => rfl
  have hline : (idf ++ (';' :: (fio ++ (';' :: cnt)))).isEmpty = false := by
    cases idf <;> rfl
  conv_lhs => rw [processRows]
  rw [hline]
  try dsimp only []
  rw [splitOnChar_append ';' idf _ h1, splitOnChar_append ';' fio _ h2,
      splitOnChar_not_mem ';' cnt h3]
  rw [if_neg (show ¬ stdFns.length < (idf :: fio :: [cnt]).length from by
    rw [show stdFns.length = 3 from rfl]
    rw [show (idf :: fio :: [cnt]).length = 3 from rfl]
    omega)]
  rw [show (idf :: fio :: [cnt]) = [idf, fio, cnt] from rfl]
  rw [rowIsBlank_std idf fio cnt hidraw]
  try dsimp only []
  rw [rowGet_std_id, rowGet_std_cnt, rowGet_std_fio]
  try dsimp only [Option.getD]
  rw [hid]
  try dsimp only []
  rw [pyInt_pyStrip]
  simp

theorem goodStr_nil : goodStr [] := ⟨rfl, by simp⟩

theorem goodStr_unknownName : goodStr unknownName := ⟨by decide, by decide⟩

theorem goodStr_pyStrip_field (line v : Str)
    (hline : ∀ c ∈ line, c ≠ '\n' ∧ c ≠ '\r' ∧ c ≠ '"')
    (hv : v ∈ splitOnChar ';' line) :
    goodStr (pyStrip v) := by
  constructor
  · exact pyStrip_idem v
  · intro c hc
    have hcv : c ∈ v := mem_pyStrip v c hc
    have h2 := mem_splitOnChar ';' line v hv c hcv
    have h3 := hline c h2.1
    exact ⟨h2.2, h3.1, h3.2.1, h3.2.2⟩

theorem mem_splitlines (s : Str) (l : Str) (hl : l ∈ splitlines s) :
    ∀ c ∈ l, c ≠ '\n' ∧ c ≠ '\r' ∧ c ∈ s := by
  intro c hc
  unfold splitlines at hl
  dsimp only [] at hl
  have hl2 : l ∈ splitOnChar '\n' (normEol s) := by
    by_cases hif : (splitOnChar '\n' (normEol s)).getLast? = some []
    · rw [if_pos hif] at hl
      exact List.Sublist.mem hl (List.dropLast_sublist _)
    · rw [if_neg hif] at hl
      exact hl
  have h1 := mem_splitOnChar '\n' (normEol s) l hl2 c hc
  have h2 : c ≠ '\r' := fun hcr => normEol_no_cr s (hcr ▸ h1.1)
  rcases mem_normEol s c h1.1 with h3 | h3
  · exact ⟨h1.2, h2, h3⟩
  · exact absurd h3 h1.2

theorem mem_parse_line (x l : Str)
    (hl : l ∈ splitlines (pyStrip (dropBom x))) :
    ∀ c ∈ l, c ≠ '\n' ∧ c ≠ '\r' ∧ c ∈ x := by
  intro c hc
  obtain ⟨h1, h2, h3⟩ := mem_splitlines _ l hl c hc
  refine ⟨h1, h2, ?_⟩
  have h4 := mem_pyStrip _ c h3
  exact List.Sublist.mem h4 (List.IsSuffix.sublist (List.dropWhile_suffix _))

theorem processRows_good (fns : List Str) :
    ∀ (lines : List Str) (acc : RecordSet) (b : Bool) (out : RecordSet),
      (∀ l ∈ lines, ∀ c ∈ l, c ≠ '\n' ∧ c ≠ '\r' ∧ c ≠ '"') →
      (∀ p ∈ acc, p.1 ≠ [] ∧ goodStr p.1 ∧ goodStr p.2.fio) →
      (acc.map (fun p => p.1)).Nodup →
      processRows fns acc lines = (b, out) →
      (∀ p ∈ out, p.1 ≠ [] ∧ goodStr p.1 ∧ goodStr p.2.fio) ∧
      (out.map (fun p => p.1)).Nodup := by
  intro lines
  induction lines with
  | nil =>
    intro acc b out _ hacc hnodup h
    rw [processRows] at h
    injection h with h1 h2
    subst h2
    exact ⟨hacc, hnodup⟩
  | cons line rest ih =>
    intro acc b out hlines hacc hnodup h
    have hrest : ∀ l ∈ rest, ∀ c ∈ l, c ≠ '\n' ∧ c ≠ '\r' ∧ c ≠ '"' :=
      fun l hl => hlines l (List.mem_cons_of_mem _ hl)
    have hline : ∀ c ∈ line, c ≠ '\n' ∧ c ≠ '\r' ∧ c ≠ '"' :=
      hlines line (List.mem_cons_self _ _)
    rw [processRows] at h
    by_cases he : line.isEmpty = true
    · rw [if_pos he] at h
      exact ih acc b out hrest hacc hnodup h
    · rw [if_neg he] at h
      dsimp only [] at h
      by_cases hlen : fns.length < (splitOnChar ';' line).length
      · rw [if_pos hlen] at h
        injection h with h1 h2
        subst h2
        exact ⟨hacc, hnodup⟩
      · rw [if_neg hlen] at h
        by_cases hbl : rowIsBlank fns (splitOnChar ';' line) = true
        · rw [if_pos hbl] at h
          exact ih acc b out hrest hacc hnodup h
        · rw [if_neg hbl] at h
          cases hr : rowGet (zipPad fns (splitOnChar ';' line)) idColName with
          | none =>
            rw [hr] at h
            dsimp only [] at h
            rw [if_pos (show (List.isEmpty ([] : Str)) = true from rfl)] at h
            exact ih acc b out hrest hacc hnodup h
          | some ov =>
            rw [hr] at h
            dsimp only [] at h
            by_cases hsid : (pyStrip (ov.getD [])).isEmpty = true
            · rw [if_pos hsid] at h
              exact ih acc b out hrest hacc hnodup h
            · rw [if_neg hsid] at h
              cases hov : ov with
              | none =>
                rw [hov] at hsid
                exact absurd rfl hsid
              | some v =>
                rw [hov] at h hr hsid
                have hv : v ∈ splitOnChar ';' line :=
                  rowGet_zipPad_mem fns _ idColName (some v) v hr rfl
                have hkey : goodStr (pyStrip v) := goodStr_pyStrip_field line v hline hv
                have hkeyne : pyStrip v ≠ [] := by
                  intro hc
                  apply hsid
                  rw [show Option.getD (some v) [] = v from rfl, hc]
                  rfl
                have hfio : goodStr
                    (match rowGet (zipPad fns (splitOnChar ';' line)) fioColName with
                      | some ov2 => pyStrip (ov2.getD [])
                      | none => unknownName) := by
                  cases hr2 : rowGet (zipPad fns (splitOnChar ';' line)) fioColName with
                  | none => exact goodStr_unknownName
                  | some ov2 =>
                    cases ov2 with
                    | none => exact goodStr_nil
                    | some v2 =>
                      exact goodStr_pyStrip_field line v2 hline
                        (rowGet_zipPad_mem fns _ fioColName (some v2) v2 hr2 rfl)
                apply ih _ b out hrest ?_ ?_ h
                · intro p hp
                  rcases mem_dictInsert _ _ _ p hp with hp2 | hp2
                  · exact hacc p hp2
                  · refine ⟨?_, ?_, ?_⟩
                    · rw [hp2.1]
                      exact hkeyne
                    · rw [hp2.1]
                      exact hkey
                    · rw [hp2.2]
                      exact hfio
                · exact nodup_keys_dictInsert acc _ _ hnodup

theorem rowCore_good (p : Str × StudentRec)
    (hk : ∀ c ∈ p.1, c ≠ ';' ∧ c ≠ '\n' ∧ c ≠ '\r' ∧ c ≠ '"')
    (hf : ∀ c ∈ p.2.fio, c ≠ ';' ∧ c ≠ '\n' ∧ c ≠ '\r' ∧ c ≠ '"') :
    rowCore p = p.1 ++ (';' :: (p.2.fio ++ (';' :: intRepr p.2.cnt))) := by
  unfold rowCore
  rw [quoteField_good p.1 hk, quoteField_good p.2.fio hf, quoteField_intRepr]

theorem processRows_map_rowCore (L : RecordSet) :
    ∀ acc, (∀ p ∈ L, p.1 ≠ [] ∧ goodStr p.1 ∧ goodStr p.2.fio) →
    ((acc ++ L).map (fun p => p.1)).Nodup →
    processRows stdFns acc (L.map rowCore) = (true, acc ++ L) := by
  induction L with
  | nil =>
    intro acc _ _
    rw [List.map_nil, processRows, List.append_nil]
  | cons p rest ih =>
    intro acc hgood hnodup
    have hp := hgood p (List.mem_cons_self _ _)
    obtain ⟨hpne, hpkey, hpfio⟩ := hp
    rw [List.map_cons,
        rowCore_good p hpkey.2 hpfio.2,
        processRows_std_row acc p.1 p.2.fio (intRepr p.2.cnt) _
          (fun hc => (hpkey.2 ';' hc).1 rfl)
          (fun hc => (hpfio.2 ';' hc).1 rfl)
          (fun hc => ((intRepr_chars p.2.cnt ';' hc).2.1) rfl)
          (by rw [hpkey.1]; rw [List.isEmpty_eq_false]; exact hpne)]
    rw [hpkey.1, hpfio.1, pyInt_intRepr]
    have hfresh : p.1 ∉ keysOf acc := by
      intro hmem
      rw [List.map_append] at hnodup
      obtain ⟨-, -, hdisj⟩ := List.nodup_append.mp hnodup
      exact hdisj hmem (by rw [List.map_cons]; exact List.mem_cons_self _ _)
    rw [show ((some p.2.cnt).getD 0) = p.2.cnt from rfl]
    rw [show (⟨p.2.fio, p.2.cnt⟩ : StudentRec) = p.2 from rfl]
    rw [dictInsert_fresh acc p.1 p.2 hfresh]
    rw [show acc ++ [(p.1, p.2)] = acc ++ [p] from rfl]
    rw [ih (acc ++ [p]) (fun q hq => hgood q (List.mem_cons_of_mem _ hq))
        (by rw [List.append_assoc]; exact (by simpa using hnodup))]
    rw [List.append_assoc]
    rfl

/-! ### Assembly lemmas for the round trip -/

theorem parse_good (x : Str) (b : Bool) (L : RecordSet)
    (hq : ∀ c ∈ x, c ≠ '"') (h : parse_csv_data [] x = (b, L)) : goodRS L := by
  unfold parse_csv_data at h
  dsimp only [] at h
  cases hsl : splitlines (pyStrip (dropBom x)) with
  | nil =>
    rw [hsl] at h
    injection h with h1 h2
    subst h2
    exact ⟨by simp, by simp⟩
  | cons hd dataLines =>
    rw [hsl] at h
    dsimp only [] at h
    by_cases hh : (pyStrip hd).isEmpty = true
    · rw [if_pos hh] at h
      injection h with h1 h2
      subst h2
      exact ⟨by simp, by simp⟩
    · rw [if_neg hh] at h
      by_cases hf : (usableFieldnames (pyStrip hd)).isEmpty = true
      · rw [if_pos hf] at h
        injection h with h1 h2
        subst h2
        exact ⟨by simp, by simp⟩
      · rw [if_neg hf] at h
        by_cases hd2 : dataLines.isEmpty = true
        · rw [if_pos hd2] at h
          injection h with h1 h2
          subst h2
          exact ⟨by simp, by simp⟩
        · rw [if_neg hd2] at h
          have hlines : ∀ l ∈ dataLines, ∀ c ∈ l, c ≠ '\n' ∧ c ≠ '\r' ∧ c ≠ '"' := by
            intro l hl c hc
            have h3 := mem_parse_line x l
              (by rw [hsl]; exact List.mem_cons_of_mem _ hl) c hc
            exact ⟨h3.1, h3.2.1, hq c h3.2.2⟩
          have hres := processRows_good (usableFieldnames (pyStrip hd)) dataLines [] b L
            hlines (by simp) (by simp) h
          exact ⟨hres.1, hres.2⟩

theorem foldr_rowOut (L : RecordSet) :
    (L.map rowOut).foldr (fun a b => a ++ b) [] =
      (L.map rowCore).foldr (fun r acc => r ++ (CRLF ++ acc)) [] := by
  induction L with
  | nil => rfl
  | cons p rest ih =>
    rw [List.map_cons, List.map_cons, List.foldr_cons, List.foldr_cons, ih,
        show rowOut p = rowCore p ++ CRLF from rfl, List.append_assoc]

theorem convert_nonempty (L : RecordSet) (hL : ¬ L.isEmpty = true) :
    convert_data_to_csv_string L =
      hdrStr ++ (CRLF ++ ((L.map rowCore).foldr (fun r acc => r ++ (CRLF ++ acc)) [])) := by
  unfold convert_data_to_csv_string
  rw [if_neg hL, show hdrCRLF = hdrStr ++ CRLF from rfl, foldr_rowOut L,
      List.append_assoc]

theorem rowCore_props (p : Str × StudentRec)
    (hpkey : goodStr p.1) (hpfio : goodStr p.2.fio) :
    rowCore p ≠ [] ∧ (∀ c ∈ rowCore p, c ≠ '\n' ∧ c ≠ '\r') ∧
    (∃ A d, rowCore p = A ++ [d] ∧ isWS d = false) := by
  rw [rowCore_good p hpkey.2 hpfio.2]
  refine ⟨?_, ?_, ?_⟩
  · cases p.1 <;> simp
  · intro c hc
    rcases List.mem_append.mp hc with h1 | h1
    · exact ⟨(hpkey.2 c h1).2.1, (hpkey.2 c h1).2.2.1⟩
    · rcases List.mem_cons.mp h1 with rfl | h1
      · exact ⟨by decide, by decide⟩
      · rcases List.mem_append.mp h1 with h2 | h2
        · exact ⟨(hpfio.2 c h2).2.1, (hpfio.2 c h2).2.2.1⟩
        · rcases List.mem_cons.mp h2 with rfl | h2
          · exact ⟨by decide, by decide⟩
          · exact ⟨(intRepr_chars _ c h2).2.2.2.1, (intRepr_chars _ c h2).2.2.1⟩
  · obtain ⟨A, d, hA, hd⟩ := intRepr_last p.2.cnt
    refine ⟨p.1 ++ (';' :: (p.2.fio ++ (';' :: A))), d, ?_, hd⟩
    rw [hA]
    simp [List.append_assoc]

/-! ### Claim theorems: error handling and conversation flow -/

/-- C1 counterexample: on input whose third data row has more fields than the
header, parse_csv_data reports failure but the resulting record set still
contains the row processed before the exception — the partially built record
set is not discarded. -/
theorem C1_counterexample :
    (parse_csv_data [] exC1).1 = false ∧
    (parse_csv_data [] exC1).2 = [(s1, ⟨sA, 2⟩)] := by decide

/-- C1 (amended): an exception while processing a data row (a row with more
fields than the header has fieldnames) aborts the whole parse and reports it
as a failure, but the partially built record set is retained: the rows already
processed remain in STUDENT_DATA. -/
theorem C1_abort_retains_rows (fns : List Str) (acc : RecordSet) (line : Str)
    (rest : List Str) (hne : ¬ line.isEmpty)
    (hx : fns.length < (splitOnChar ';' line).length) :
    processRows fns acc (line :: rest) = (false, acc) := by
  unfold processRows
  simp [hne, hx]

theorem C1_witness :
    ¬ exBadLine.isEmpty ∧ stdFns.length < (splitOnChar ';' exBadLine).length ∧
    processRows stdFns [(s1, ⟨sA, 2⟩)] [exBadLine] = (false, [(s1, ⟨sA, 2⟩)]) :=
  ⟨by decide, by decide,
   C1_abort_retains_rows stdFns [(s1, ⟨sA, 2⟩)] exBadLine [] (by decide) (by decide)⟩

/-- C2 counterexample: a data row whose count field is "-3" is parsed
successfully into a record with absence count -3, a negative integer — the
coercion succeeds and its (negative) value is stored, violating
non-negativity. -/
theorem C2_counterexample :
    (parse_csv_data [] exC2).1 = true ∧
    dictGet (parse_csv_data [] exC2).2 s1 = some ⟨sA, -3⟩ ∧ (-3 : Int) < 0 := by decide

/-- C5: a caller whose identifier differs from the configured administrator
identifier gets the permission-denied reply, the conversation ends immediately
(ConversationHandler.END, no state entered) and the session is unchanged. -/
theorem C5_permission_denied (adminId userId : Int) (sess : Session)
    (h : userId ≠ adminId) :
    start_edit_pass_command adminId userId sess = (CONV_END, deniedMsg, sess) := by
  simp [start_edit_pass_command, h]

theorem C5_witness :
    (3 : Int) ≠ 7 ∧ start_edit_pass_command 7 3 {} = (CONV_END, deniedMsg, {}) :=
  ⟨by decide, C5_permission_denied 7 3 {} (by decide)⟩

/-- C6: looking up an identifier present in the record set renders a reply
containing the record's exact stored name and absence count (and the id
itself), leaving the session unchanged; an absent identifier yields the
not-found reply and the unchanged session. -/
theorem C6_lookup (data : RecordSet) (lastUpdated searchId : Str) (sess : Session) :
    (∀ st, dictGet data searchId = some st →
      containsSub st.fio (process_data_request data lastUpdated searchId sess).1 ∧
      containsSub (intRepr st.cnt) (process_data_request data lastUpdated searchId sess).1 ∧
      containsSub searchId (process_data_request data lastUpdated searchId sess).1 ∧
      (process_data_request data lastUpdated searchId sess).2 = sess) ∧
    (dictGet data searchId = none →
      process_data_request data lastUpdated searchId sess = (notFoundReply, sess)) := by
  constructor
  · intro st h
    refine ⟨⟨replyP1, replyP2 ++ (searchId ++ (replyP3 ++ (intRepr st.cnt ++ (replyP4 ++ (lastUpdated ++ replyP5))))), ?_⟩,
            ⟨replyP1 ++ (st.fio ++ (replyP2 ++ (searchId ++ replyP3))), replyP4 ++ (lastUpdated ++ replyP5), ?_⟩,
            ⟨replyP1 ++ (st.fio ++ replyP2), replyP3 ++ (intRepr st.cnt ++ (replyP4 ++ (lastUpdated ++ replyP5))), ?_⟩,
            ?_⟩ <;>
      simp [process_data_request, h]
  · intro h
    simp [process_data_request, h]

theorem C6_witness :
    (containsSub nameIv (process_data_request exData unknownTime id123 {}).1 ∧
     containsSub (intRepr 3) (process_data_request exData unknownTime id123 {}).1 ∧
     containsSub id123 (process_data_request exData unknownTime id123 {}).1 ∧
     (process_data_request exData unknownTime id123 {}).2 = {}) ∧
    process_data_request exData unknownTime id999 {} = (notFoundReply, {}) :=
  ⟨(C6_lookup exData unknownTime id123 {}).1 ⟨nameIv, 3⟩ (by decide),
   (C6_lookup exData unknownTime id999 {}).2 (by decide)⟩

/-- C4: the edit conversation per administrator session: an unknown identifier
in AwaitingIdentifier re-prompts leaving state and session unchanged; a known
identifier is stored as the pending edit identifier and moves to
AwaitingNewCount; input that is not a non-negative integer in AwaitingNewCount
re-prompts changing nothing; a valid non-negative integer n sets the pending
record's count to n and returns to Idle (ConversationHandler.END). -/
theorem C4_edit_flow (data : RecordSet) (sess : Session) :
    (∀ text, dictGet data (pyStrip text) = none →
      (get_student_id data text sess).1 = GETTING_ID ∧
      (get_student_id data text sess).2.2 = sess) ∧
    (∀ text st, dictGet data (pyStrip text) = some st →
      (get_student_id data text sess).1 = GETTING_ABSENCES ∧
      (get_student_id data text sess).2.2 = { sess with temp_edit_id := some (pyStrip text) }) ∧
    (∀ commitOk text, (∀ n, pyInt (pyStrip text) = some n → n < 0) →
      get_absences_count commitOk data text sess = some (GETTING_ABSENCES, badCountMsg, sess, data)) ∧
    (∀ commitOk text n sid st, pyInt (pyStrip text) = some n → 0 ≤ n →
      sess.temp_edit_id = some sid → dictGet data sid = some st →
      get_absences_count commitOk data text sess =
        some (CONV_END,
              if commitOk then
                okMsgP1 ++ (st.fio ++ (okMsgP2 ++ (sid ++ (okMsgP3 ++ (intRepr n ++ okMsgP4)))))
              else commitFailMsg,
              { sess with temp_edit_id := none }, dictInsert data sid ⟨st.fio, n⟩) ∧
      dictGet (dictInsert data sid ⟨st.fio, n⟩) sid = some ⟨st.fio, n⟩) := by
  refine ⟨?_, ?_, ?_, ?_⟩
  · intro text h
    simp [get_student_id, h]
  · intro text st h
    simp [get_student_id, h]
  · intro commitOk text h
    cases hp : pyInt (pyStrip text) with
    | none => simp [get_absences_count, hp]
    | some n =>
      have hn : n < 0 := h n hp
      simp [get_absences_count, hp, hn]
  · intro commitOk text n sid st hn hpos hsid hst
    have hlt : ¬ n < 0 := by omega
    refine ⟨?_, dictGet_dictInsert_self data sid ⟨st.fio, n⟩⟩
    simp [get_absences_count, hn, hlt, hsid, hst]

theorem C4_witness :
    ((get_student_id exData id999 {}).1 = GETTING_ID ∧
     (get_student_id exData id999 {}).2.2 = {}) ∧
    ((get_student_id exData id123 {}).1 = GETTING_ABSENCES ∧
     (get_student_id exData id123 {}).2.2 = { temp_edit_id := some id123 }) ∧
    (get_absences_count true exData tNeg1 sess123 =
      some (GETTING_ABSENCES, badCountMsg, sess123, exData)) ∧
    (get_absences_count true exData t7 sess123 =
      some (CONV_END,
            okMsgP1 ++ (nameIv ++ (okMsgP2 ++ (id123 ++ (okMsgP3 ++ (intRepr 7 ++ okMsgP4))))),
            {}, dictInsert exData id123 ⟨nameIv, 7⟩) ∧
     dictGet (dictInsert exData id123 ⟨nameIv, 7⟩) id123 = some ⟨nameIv, 7⟩) := by
  refine ⟨(C4_edit_flow exData {}).1 id999 (by decide),
          ?_,
          (C4_edit_flow exData sess123).2.2.1 true tNeg1 ?_,
          ?_⟩
  · have h := (C4_edit_flow exData {}).2.1 id123 ⟨nameIv, 3⟩ (by decide)
    exact ⟨h.1, by rw [h.2]; decide⟩
  · intro n hn
    have : n = -1 := by
      have : pyInt (pyStrip tNeg1) = some (-1) := by decide
      rw [this] at hn
      exact (Option.some_inj.mp hn).symm
    omega
  · have h := (C4_edit_flow exData sess123).2.2.2 true t7 7 id123 ⟨nameIv, 3⟩
      (by decide) (by decide) (by decide) (by decide)
    refine ⟨?_, h.2⟩
    rw [h.1]
    rfl

/-- C7: the commit-metadata query is best-effort and independent of the
content fetch: absent credentials or repository details, or a failed query,
set the timestamp to the unknown default; the success result and the loaded
data do not depend on the metadata outcome; and with a configured URL and a
successful fetch the result is exactly the parse outcome of the fetched
text. -/
theorem C7_metadata_best_effort (cfg : GitConfig) (metaOut : MetaOutcome)
    (fetched : Option Str) (pt : Str) (pd : RecordSet) :
    ((cfg.token = none ∨ cfg.repoDetails = none ∨ metaOut = .failure) →
      (load_data_from_git cfg metaOut fetched pt pd).2.1 = unknownTime) ∧
    (∀ metaOut',
      (load_data_from_git cfg metaOut fetched pt pd).1 =
        (load_data_from_git cfg metaOut' fetched pt pd).1 ∧
      (load_data_from_git cfg metaOut fetched pt pd).2.2 =
        (load_data_from_git cfg metaOut' fetched pt pd).2.2) ∧
    (∀ u text, cfg.csvUrl = some u → fetched = some text →
      (load_data_from_git cfg metaOut fetched pt pd).1 = (parse_csv_data pd text).1 ∧
      (load_data_from_git cfg metaOut fetched pt pd).2.2 = (parse_csv_data pd text).2) := by
  obtain ⟨url, tok, rd⟩ := cfg
  refine ⟨?_, ?_, ?_⟩
  · intro h
    rcases h with h | h | h <;>
      simp_all [load_data_from_git] <;>
      cases url <;> cases fetched <;> simp_all
  · intro metaOut'
    cases url <;> cases fetched <;>
      simp [load_data_from_git]
  · intro u text hu hf
    subst hu hf
    by_cases hm : (some u = none ∨ tok = none ∨ rd = none)
    · simp [load_data_from_git, hm]
    · simp [load_data_from_git, hm]

theorem C7_witness :
    (load_data_from_git ⟨some s1, none, none⟩ MetaOutcome.failure (some exC2) unknownTime []).2.1 = unknownTime ∧
    ((load_data_from_git ⟨some s1, none, none⟩ MetaOutcome.failure (some exC2) unknownTime []).1 =
      (load_data_from_git ⟨some s1, none, none⟩ (MetaOutcome.stamp sA) (some exC2) unknownTime []).1 ∧
     (load_data_from_git ⟨some s1, none, none⟩ MetaOutcome.failure (some exC2) unknownTime []).2.2 =
      (load_data_from_git ⟨some s1, none, none⟩ (MetaOutcome.stamp sA) (some exC2) unknownTime []).2.2) ∧
    ((load_data_from_git ⟨some s1, none, none⟩ MetaOutcome.failure (some exC2) unknownTime []).1 =
      (parse_csv_data [] exC2).1 ∧
     (load_data_from_git ⟨some s1, none, none⟩ MetaOutcome.failure (some exC2) unknownTime []).2.2 =
      (parse_csv_data [] exC2).2) :=
  ⟨(C7_metadata_best_effort ⟨some s1, none, none⟩ MetaOutcome.failure (some exC2) unknownTime []).1
      (Or.inl rfl),
   (C7_metadata_best_effort ⟨some s1, none, none⟩ MetaOutcome.failure (some exC2) unknownTime []).2.1
      (MetaOutcome.stamp sA),
   (C7_metadata_best_effort ⟨some s1, none, none⟩ MetaOutcome.failure (some exC2) unknownTime []).2.2
      s1 exC2 rfl rfl⟩

/-- C8: in AwaitingNewCount, once the input is a valid non-negative integer
and a pending edit identifier is set, the handler completes without raising
if and only if the pending identifier is still present in the record set; an
intervening reload that dropped it makes the unguarded
`STUDENT_DATA[student_id]` lookup raise (the `none` branch). -/
theorem C8_unguarded_lookup (commitOk : Bool) (data : RecordSet) (text : Str)
    (sess : Session) (sid : Str) (n : Int)
    (hn : pyInt (pyStrip text) = some n) (hpos : 0 ≤ n)
    (hp : sess.temp_edit_id = some sid) :
    (get_absences_count commitOk data text sess).isSome = (dictGet data sid).isSome := by
  have hlt : ¬ n < 0 := by omega
  cases hd : dictGet data sid <;>
    simp [get_absences_count, hn, hlt, hp, hd]

theorem C8_witness :
    (get_absences_count true [] t7 sess123).isSome = (dictGet [] id123).isSome ∧
    (dictGet ([] : RecordSet) id123).isSome = false :=
  ⟨C8_unguarded_lookup true [] t7 sess123 id123 7 (by decide) (by decide) (by decide),
   by decide⟩

/-- C9: parse_csv_data resets STUDENT_DATA before reading its input, so its
outcome is independent of the prior record set — after any parse, failed or
not, no previously loaded record survives; in particular a parse that fails
on empty input leaves an empty record set whatever was loaded before. -/
theorem C9_reset_prior (prior : RecordSet) (content : Str) :
    parse_csv_data prior content = parse_csv_data [] content ∧
    (pyStrip (dropBom content) = [] → parse_csv_data prior content = (false, [])) := by
  refine ⟨rfl, ?_⟩
  intro h
  unfold parse_csv_data
  dsimp only []
  rw [h]
  rfl

theorem C9_witness : parse_csv_data exData exWs = (false, []) :=
  (C9_reset_prior exData exWs).2 (by decide)

/-- C10: input consisting of just a header line that yields at least one
usable column name parses as a success with an empty record set. -/
theorem C10_header_only (prior : RecordSet) (content h : Str)
    (hl : splitlines (pyStrip (dropBom content)) = [h])
    (hf : usableFieldnames (pyStrip h) ≠ []) :
    parse_csv_data prior content = (true, []) := by
  have hdr : ¬ (pyStrip h).isEmpty := by
    intro he
    rw [List.isEmpty_iff] at he
    rw [he] at hf
    exact hf (by decide)
  unfold parse_csv_data
  dsimp only []
  rw [hl]
  simp [hdr, hf]

theorem C10_witness :
    splitlines (pyStrip (dropBom exHdrOnly)) = [exHdrOnly] ∧
    usableFieldnames (pyStrip exHdrOnly) ≠ [] ∧
    parse_csv_data exData exHdrOnly = (true, []) :=
  ⟨by decide, by decide, C10_header_only exData exHdrOnly exHdrOnly (by decide) (by decide)⟩

/-- C3: for well-formed semicolon-delimited input (no quote characters, so the
csv layer stays in its verbatim fragment) whose parse succeeds, serializing
the resulting record set and parsing again reproduces exactly the same record
set — same identifiers, names and counts, in the same order. -/
theorem C3_roundtrip (x : Str) (L : RecordSet)
    (hq : ∀ c ∈ x, c ≠ '"')
    (h : parse_csv_data [] x = (true, L)) :
    parse_csv_data [] (convert_data_to_csv_string L) = (true, L) := by
  obtain ⟨hentries, hnodup⟩ := parse_good x true L hq h
  by_cases hL : L = []
  · subst hL
    decide
  · have hLne : ¬ L.isEmpty = true := by simpa [List.isEmpty_iff] using hL
    rw [convert_nonempty L hLne]
    have hcne : L.map rowCore ≠ [] := by simpa using hL
    have hcprops : ∀ r ∈ L.map rowCore, r ≠ [] ∧
        (∀ c ∈ r, c ≠ '\n' ∧ c ≠ '\r') ∧
        (∃ A d, r = A ++ [d] ∧ isWS d = false) := by
      intro r hr
      obtain ⟨p, hp, rfl⟩ := List.mem_map.mp hr
      obtain ⟨h1, h2, h3⟩ := hentries p hp
      exact rowCore_props p h2 h3
    rw [foldr_rows_eq_interCRLF (L.map rowCore) hcne]
    unfold parse_csv_data
    dsimp only []
    rw [dropBom_hdr_append,
        pyStrip_serialized (L.map rowCore) hcne (fun r hr => (hcprops r hr).2.2),
        splitlines_serialized (L.map rowCore) hcne (fun r hr => (hcprops r hr).1)
          (fun r hr => (hcprops r hr).2.1)]
    dsimp only []
    rw [if_neg (show ¬ (pyStrip hdrStr).isEmpty = true from by decide),
        show usableFieldnames (pyStrip hdrStr) = stdFns from by decide,
        if_neg (show ¬ (stdFns : List Str).isEmpty = true from by decide),
        if_neg (show ¬ (L.map rowCore).isEmpty = true from by
          simpa [List.isEmpty_iff] using hcne),
        processRows_map_rowCore L [] hentries (by simpa using hnodup)]
    rfl

theorem C3_witness :
    parse_csv_data [] exC3 = (true, exC3L) ∧
    parse_csv_data [] (convert_data_to_csv_string exC3L) = (true, exC3L) :=
  ⟨by decide, C3_roundtrip exC3 exC3L (by decide) (by decide)⟩

/-! ### Amended count-coercion behaviour (claim C2) -/

theorem dropTrail_length_le (s : Str) : (dropTrail s).length ≤ s.length := by
  unfold dropTrail
  rw [List.length_reverse]
  calc (List.dropWhile isWS s.reverse).length
      ≤ s.reverse.length := (List.dropWhile_suffix _).sublist.length_le
    _ = s.length := List.length_reverse _

theorem pyStrip_stable_dropTrail (s : Str) (hs : pyStrip s = s) : dropTrail s = s := by
  have h2 : (pyStrip s).length ≤ (dropLead s).length := dropTrail_length_le _
  rw [hs] at h2
  have h1 : (dropLead s).length ≤ s.length := by
    unfold dropLead
    exact (List.dropWhile_suffix _).sublist.length_le
  have h3 : dropLead s = s := by
    unfold dropLead
    apply (List.dropWhile_suffix isWS).sublist.eq_of_length
    unfold dropLead at h1 h2
    omega
  unfold pyStrip at hs
  rw [h3] at hs
  exact hs

theorem pyStrip_stable_last (s : Str) (hs : pyStrip s = s) (hne : s ≠ []) :
    ∃ A d, s = A ++ [d] ∧ isWS d = false := by
  cases hrev : s.reverse with
  | nil => exact absurd (List.reverse_eq_nil_iff.mp hrev) hne
  | cons d t =>
    have hsd : s = t.reverse ++ [d] := by
      have h0 := congrArg List.reverse hrev
      rw [List.reverse_reverse] at h0
      rw [h0, List.reverse_cons]
    refine ⟨t.reverse, d, hsd, ?_⟩
    cases hw : isWS d with
    | false => rfl
    | true =>
      exfalso
      have hmono : dropTrail s = s := pyStrip_stable_dropTrail s hs
      rw [hsd, dropTrail_concat_WS _ _ hw] at hmono
      have hlen := dropTrail_length_le t.reverse
      rw [hmono] at hlen
      simp at hlen

theorem pyStrip_hdr_content (rest : Str)
    (hlast : ∃ A d, hdrStr ++ rest = A ++ [d] ∧ isWS d = false) :
    pyStrip (hdrStr ++ rest) = hdrStr ++ rest := by
  unfold pyStrip
  have hlead : dropLead (hdrStr ++ rest) = hdrStr ++ rest := by
    rw [show hdrStr ++ rest = 'I' :: ("D номер;ФИО;Количество пропусков".data ++ rest) from rfl]
    exact dropLead_cons_notWS _ _ (by decide)
  rw [hlead]
  obtain ⟨A, d, hA, hd⟩ := hlast
  rw [hA, dropTrail_concat_notWS _ _ hd, ← hA]

theorem splitlines_hdr_row (row : Str) (hrow : ∀ c ∈ row, c ≠ '\n' ∧ c ≠ '\r')
    (hne : row ≠ []) :
    splitlines (hdrStr ++ ('\n' :: row)) = [hdrStr, row] := by
  have hnorm : normEol (hdrStr ++ ('\n' :: row)) = hdrStr ++ ('\n' :: row) := by
    rw [normEol_append_noCR _ _ (by decide),
        normEol_cons_ne '\n' row (by decide),
        normEol_eq_self row (fun c hc => (hrow c hc).2)]
  unfold splitlines
  dsimp only []
  rw [hnorm,
      show hdrStr ++ ('\n' :: row) = interNL [hdrStr, row] from rfl,
      splitOnChar_interNL [hdrStr, row] (by simp) (by
        intro r hr
        rcases List.mem_cons.mp hr with rfl | hr2
        · decide
        · rw [List.mem_singleton] at hr2
          subst hr2
          intro hc
          exact (hrow '\n' hc).1 rfl),
      if_neg (getLast?_ne_some_nil [hdrStr, row] (by
        intro r hr
        rcases List.mem_cons.mp hr with rfl | hr2
        · decide
        · rw [List.mem_singleton] at hr2
          subst hr2
          exact hne))]

/-- C2 (amended): a well-formed single data row parses into a record whose
absence count is the Python int coercion of the count field's text when that
coercion succeeds (the value may be negative), and 0 when it fails. -/
theorem C2_count_coercion (prior : RecordSet) (idf fio cnt : Str)
    (hidc : ∀ c ∈ idf, c ≠ ';' ∧ c ≠ '\n' ∧ c ≠ '\r')
    (hfioc : ∀ c ∈ fio, c ≠ ';' ∧ c ≠ '\n' ∧ c ≠ '\r')
    (hcntc : ∀ c ∈ cnt, c ≠ ';' ∧ c ≠ '\n' ∧ c ≠ '\r')
    (hid : (pyStrip idf).isEmpty = false)
    (hstable : pyStrip cnt = cnt) :
    parse_csv_data prior (hdrStr ++ ('\n' :: (idf ++ (';' :: (fio ++ (';' :: cnt)))))) =
      (true, [(pyStrip idf, ⟨pyStrip fio, (pyInt cnt).getD 0⟩)]) := by
  have hrowne : idf ++ (';' :: (fio ++ (';' :: cnt))) ≠ [] := by
    cases idf <;> simp
  have hrowchars : ∀ c ∈ idf ++ (';' :: (fio ++ (';' :: cnt))), c ≠ '\n' ∧ c ≠ '\r' := by
    intro c hc
    rcases List.mem_append.mp hc with h1 | h1
    · exact ⟨(hidc c h1).2.1, (hidc c h1).2.2⟩
    · rcases List.mem_cons.mp h1 with rfl | h1
      · exact ⟨by decide, by decide⟩
      · rcases List.mem_append.mp h1 with h2 | h2
        · exact ⟨(hfioc c h2).2.1, (hfioc c h2).2.2⟩
        · rcases List.mem_cons.mp h2 with rfl | h2
          · exact ⟨by decide, by decide⟩
          · exact ⟨(hcntc c h2).2.1, (hcntc c h2).2.2⟩
  have hend : ∃ A d, hdrStr ++ ('\n' :: (idf ++ (';' :: (fio ++ (';' :: cnt))))) =
      A ++ [d] ∧ isWS d = false := by
    cases hc : cnt with
    | nil =>
      refine ⟨hdrStr ++ ('\n' :: (idf ++ (';' :: fio))), ';', ?_, by decide⟩
      simp [List.append_assoc]
    | cons a b =>
      obtain ⟨A, d, hA, hd⟩ :=
        pyStrip_stable_last cnt hstable (by rw [hc]; exact List.cons_ne_nil _ _)
      refine ⟨hdrStr ++ ('\n' :: (idf ++ (';' :: (fio ++ (';' :: A))))), d, ?_, hd⟩
      rw [← hc, hA]
      simp [List.append_assoc]
  unfold parse_csv_data
  dsimp only []
  rw [dropBom_hdr_append, pyStrip_hdr_content _ hend,
      splitlines_hdr_row _ hrowchars hrowne]
  dsimp only []
  rw [if_neg (show ¬ (pyStrip hdrStr).isEmpty = true from by decide),
      show usableFieldnames (pyStrip hdrStr) = stdFns from by decide,
      if_neg (show ¬ (stdFns : List Str).isEmpty = true from by decide),
      if_neg (show ¬ ([idf ++ (';' :: (fio ++ (';' :: cnt)))] : List Str).isEmpty = true
        from by simp),
      processRows_std_row [] idf fio cnt []
        (fun hc => (hidc ';' hc).1 rfl)
        (fun hc => (hfioc ';' hc).1 rfl)
        (fun hc => (hcntc ';' hc).1 rfl)
        hid]
  rfl

theorem C2_witness :
    parse_csv_data [] (hdrStr ++ ('\n' :: (id123 ++ (';' :: (nameIv ++ (';' :: sAbc)))))) =
      (true, [(pyStrip id123, ⟨pyStrip nameIv, (pyInt sAbc).getD 0⟩)]) ∧
    pyInt sAbc = none :=
  ⟨C2_count_coercion [] id123 nameIv sAbc (by decide) (by decide) (by decide)
      (by decide) (by decide),
   by decide⟩
